import Mathlib

/-!
Shallow embedding of `src/interpreter/interpreter/memory.py`, the simulated
runtime memory of a C-like interpreter.

The Python module imports `Number`, `Pointer`, `sizeof` and `types_py` from a
sibling `types` module that is not part of the sources; those four names are
modelled from the spec (each such definition carries a doc comment starting
with `Modelled from the spec:`).

Python exceptions (KeyError, RuntimeError, IndexError, AttributeError,
TypeError) are modelled with an explicit error type and `Except`; an erroring
operation aborts the run, as an uncaught Python exception would.
-/

namespace CMemory

/-- The Python exceptions the memory module can raise. -/
inductive Err where
  /-- `KeyError` from a dict lookup (`Scope.__getitem__`). -/
  | keyError (key : String)
  /-- The `RuntimeError` raised by `Memory.find_key`. -/
  | runtimeError (key : String)
  /-- `IndexError` (`list.pop` on an empty list, `""[-1]`). -/
  | indexError
  /-- `AttributeError` (attribute access on `None`). -/
  | attributeError
  /-- `TypeError` (item assignment on `None`). -/
  | typeError
  deriving DecidableEq, Repr

/-- Runtime values stored in `raw_memory`.

`number` and `pointer` model the external `Number(var_type)` and
`Pointer(var_type)` constructors; `none_val` is Python's `None` (stored for
aggregate/unrecognized declarations); `extVal` stands for any other opaque
value an evaluator may pass to `write`/`write_at`.

Modelled from the spec: `Number` comes from the external `types` module (not
under the sources); the spec says "a fresh default numeric-kind value is
generated" on each construction (the code comments call it a random number),
so `number` carries a `tag` drawn from a counter kept in the `Memory` state,
making distinct constructions distinguishable. -/
inductive Value where
  | number (type_name : String) (tag : Nat)
  | pointer (type_name : String)
  | none_val
  | extVal (n : Nat)
  deriving DecidableEq, Repr

/-- Modelled from the spec: the externally-registered primitive type set
`types_py` of the external `types` module (not under the sources); the spec
fixes no concrete contents, so the usual C arithmetic type names are used. -/
def types_py : List String :=
  ["char", "short", "int", "long", "float", "double"]

/-- Modelled from the spec: `sizeof(type_name) -> integer size` of the
external `types` module (not under the sources). The spec fixes no concrete
sizes but requires allocations to cover disjoint ranges, so every size is
positive; typical C sizes are used. -/
def sizeof (type_name : String) : Nat :=
  if type_name ≠ "" && type_name.back == '*' then 8
  else if type_name == "char" then 1
  else if type_name == "short" then 2
  else if type_name == "int" then 4
  else if type_name == "long" then 8
  else if type_name == "float" then 4
  else if type_name == "double" then 8
  else 1

/-- A scope (block/function) with its address table (`class Scope`), i.e.
what a Python variable of scope type holds: either an actual scope object
(`mk`) or `None` (`none_scope` — the parent of the global scope and of a
frame's base scope, and the value `Frame.curr_scope` takes after `del_scope`
at the base scope).  The dict `_addresses` is an association list: new
bindings are consed in front and lookup takes the first match, which is
observably dict overwrite semantics. -/
inductive Scope where
  | none_scope
  | mk (scope_name : String) (parent_scope : Scope)
       (addresses : List (String × Nat))
  deriving DecidableEq, Repr

/-- `Scope.scope_name` (unreachable on `none_scope`: Python would raise). -/
def Scope.scope_name : Scope → String
  | .none_scope => ""
  | .mk n _ _ => n

/-- `Scope.parent_scope` (unreachable on `none_scope`). -/
def Scope.parent_scope : Scope → Scope
  | .none_scope => .none_scope
  | .mk _ p _ => p

/-- `Scope._addresses` (unreachable on `none_scope`). -/
def Scope.addresses : Scope → List (String × Nat)
  | .none_scope => []
  | .mk _ _ a => a

/-- First-match lookup in an association list (Python dict read). -/
def slookup (l : List (String × Nat)) (key : String) : Option Nat :=
  match l with
  | [] => none
  | (k, v) :: t => if k = key then some v else slookup t key

/-- `Scope.__getitem__` as a partial lookup; call sites that would let the
Python `KeyError` escape turn `none` into `Err.keyError`. -/
def Scope.getItem? (s : Scope) (key : String) : Option Nat :=
  slookup s.addresses key

/-- `Scope.__setitem__`: insert or overwrite a binding in this scope only. -/
def Scope.setItem (s : Scope) (key : String) (address : Nat) : Scope :=
  .mk s.scope_name s.parent_scope ((key, address) :: s.addresses)

/-- `Scope.__contains__`. -/
def Scope.containsKey (s : Scope) (key : String) : Bool :=
  (s.getItem? key).isSome

/-- `Frame.find_key`'s loop `while scope and key not in scope:
scope = scope.parent_scope`; returns the first scope in the parent chain
containing the key, or `none_scope` (Python `None`). -/
def Scope.findFrom : Scope → String → Scope
  | .none_scope, _ => .none_scope
  | .mk n p addrs, key =>
    if (Scope.mk n p addrs).containsKey key then .mk n p addrs
    else p.findFrom key

/-- A single stack frame (`class Frame`).  In the source `curr_scope` is a
scope object on construction but becomes `None` (here `none_scope`) when
`del_scope` runs at the base scope, since it assigns the base scope's
`parent_scope`. -/
structure Frame where
  frame_name : String
  curr_scope : Scope
  deriving DecidableEq, Repr

/-- `'{:02d}'.format n`: decimal, zero-padded to at least two digits. -/
def twoDigits (n : Nat) : String :=
  if n < 10 then "0" ++ toString n else toString n

/-- The scope-name computation of `Frame.new_scope`:
`'{}{:02d}'.format(name[:-2], int(name[-2:]) + 1)`.  Names built by the code
always end in two digits, so Python's `int` cannot fail there; `getD 0`
covers the impossible parse failure. -/
def nextScopeName (name : String) : String :=
  name.dropRight 2 ++ twoDigits (((name.takeRight 2).toNat?).getD 0 + 1)

/-- `Frame.__init__`: a frame starts with a base scope of depth `00` and no
parent. -/
def Frame.make (frame_name : String) : Frame :=
  { frame_name
    curr_scope := .mk (frame_name ++ ".scope_00") .none_scope [] }

/-- `Frame.new_scope`: push a child scope.  Reading `scope_name` off a
`None` current scope is Python's `AttributeError`. -/
def Frame.new_scope (f : Frame) : Except Err Frame :=
  match f.curr_scope with
  | .none_scope => .error .attributeError
  | .mk n p addrs =>
    .ok { f with curr_scope := Scope.mk (nextScopeName n) (Scope.mk n p addrs) [] }

/-- `Frame.del_scope`: `self.curr_scope = self.curr_scope.parent_scope`.
With `curr_scope = None` the attribute read raises; at the base scope it
silently sets `curr_scope` to `None` (no check in the source). -/
def Frame.del_scope (f : Frame) : Except Err Frame :=
  match f.curr_scope with
  | .none_scope => .error .attributeError
  | .mk _ p _ => .ok { f with curr_scope := p }

/-- `Frame.find_key`: walk from the current scope through parents. -/
def Frame.find_key (f : Frame) (key : String) : Scope :=
  f.curr_scope.findFrom key

/-- The call stack (`class Stack`).  The source keeps `frames` in push order
plus a redundant `curr_frame` maintained equal to `frames[-1]` (or `None`);
here `frames` is kept most-recent-first so the current frame is the head,
and `curr_frame` is derived. -/
structure Stack where
  frames : List Frame
  deriving DecidableEq, Repr

/-- `Stack.curr_frame` (the source's invariant `curr_frame = frames[-1]`,
or `None` when empty). -/
def Stack.curr_frame (s : Stack) : Option Frame :=
  s.frames.head?

/-- `Stack.is_empty`. -/
def Stack.isEmpty (s : Stack) : Bool :=
  s.frames.isEmpty

/-- `Stack.new_frame`. -/
def Stack.new_frame (s : Stack) (frame_name : String) : Stack :=
  ⟨Frame.make frame_name :: s.frames⟩

/-- `Stack.del_frame`: `frames.pop(-1)` raises `IndexError` on an empty
list. -/
def Stack.del_frame (s : Stack) : Except Err Stack :=
  match s.frames with
  | [] => .error .indexError
  | _ :: t => .ok ⟨t⟩

/-- The simulated program memory (`class Memory`): a global scope, the call
stack, the raw address → value map, and the bump-allocator cursor.
`fresh` is the counter feeding `Value.number` tags (see `Value`); it models
the external random-number state and is not a field of the Python class. -/
structure Memory where
  global_scope : Scope
  stack : Stack
  raw_memory : List (Nat × Value)
  next_free_address : Nat
  fresh : Nat
  deriving DecidableEq, Repr

/-- `Memory.STARTING_ADDRESS = int(1e6)`. -/
def Memory.STARTING_ADDRESS : Nat := 1000000

/-- `Memory.__init__`. -/
def Memory.init : Memory :=
  { global_scope := .mk "global_scope" .none_scope []
    stack := ⟨[]⟩
    raw_memory := []
    next_free_address := Memory.STARTING_ADDRESS
    fresh := 0 }

/-- First-match lookup in the raw memory map (Python dict read). -/
def rlookup (l : List (Nat × Value)) (address : Nat) : Option Value :=
  match l with
  | [] => none
  | (k, v) :: t => if k = address then some v else rlookup t address

/-- `Memory.malloc`: return the cursor, advance it by the block size. -/
def Memory.malloc (m : Memory) (block_sz : Nat) : Nat × Memory :=
  (m.next_free_address,
   { m with next_free_address := m.next_free_address + block_sz })

/-- `Memory.declare`: pick the active scope (global if the stack is empty,
else the current frame's current scope), bind `var_name` to a fresh address,
then classify `var_type` to initialize raw storage: trailing `*` stores a
`Pointer`, membership in `types_py` a `Number`, anything else Python `None`.
`var_type[-1]` on the empty string is `IndexError`; item assignment on a
`None` current scope is `TypeError`. -/
def Memory.declare (m : Memory) (var_type var_name : String) : Except Err Memory :=
  let (address, m1) := m.malloc (sizeof var_type)
  let bound : Except Err Memory :=
    match m1.stack.frames with
    | [] =>
      .ok { m1 with global_scope := m1.global_scope.setItem var_name address }
    | f :: rest =>
      match f.curr_scope with
      | .none_scope => .error Err.typeError
      | .mk n p addrs =>
        .ok { m1 with
              stack := ⟨{ f with
                          curr_scope := (Scope.mk n p addrs).setItem var_name address } :: rest⟩ }
  match bound with
  | .error e => .error e
  | .ok m2 =>
    if var_type = "" then .error Err.indexError
    else if var_type.back == '*' then
      .ok { m2 with raw_memory := (address, Value.pointer var_type) :: m2.raw_memory }
    else if types_py.contains var_type then
      .ok { m2 with raw_memory := (address, Value.number var_type m2.fresh) :: m2.raw_memory
                    fresh := m2.fresh + 1 }
    else
      .ok { m2 with raw_memory := (address, Value.none_val) :: m2.raw_memory }

/-- `Memory.find_key`: with an empty stack return the global scope (no
membership check in the source); otherwise search the current frame's chain,
then fall back to the global scope, else raise `RuntimeError`. -/
def Memory.find_key (m : Memory) (key : String) : Except Err Scope :=
  match m.stack.frames with
  | [] => .ok m.global_scope
  | f :: _ =>
    match f.find_key key with
    | .none_scope =>
      if m.global_scope.containsKey key then .ok m.global_scope
      else .error (Err.runtimeError key)
    | scope => .ok scope

/-- `Memory.get_address`: `scope[key]`, whose dict read raises `KeyError`
when the returned scope lacks the key. -/
def Memory.get_address (m : Memory) (key : String) : Except Err Nat :=
  match m.find_key key with
  | .error e => .error e
  | .ok scope =>
    match scope.getItem? key with
    | some address => .ok address
    | none => .error (Err.keyError key)

/-- `Memory.set_at_address`: unconditional overwrite. -/
def Memory.set_at_address (m : Memory) (address : Nat) (value : Value) : Memory :=
  { m with raw_memory := (address, value) :: m.raw_memory }

/-- `Memory.get_at_address`: an absent address memoizes a fresh
`Number('int')` (an uninitialized read) and returns it; a present address
returns the stored value unchanged. -/
def Memory.get_at_address (m : Memory) (address : Nat) : Value × Memory :=
  match rlookup m.raw_memory address with
  | some v => (v, m)
  | none =>
    let v := Value.number "int" m.fresh
    (v, { m with raw_memory := (address, v) :: m.raw_memory, fresh := m.fresh + 1 })

/-- `Memory.__setitem__` (the spec's `write(var_name, value)`). -/
def Memory.setItem (m : Memory) (key : String) (value : Value) : Except Err Memory :=
  match m.get_address key with
  | .error e => .error e
  | .ok address => .ok (m.set_at_address address value)

/-- `Memory.__getitem__` (the spec's `read(var_name)`); returns the value
together with the possibly-memoizing state. -/
def Memory.getItem (m : Memory) (key : String) : Except Err (Value × Memory) :=
  match m.get_address key with
  | .error e => .error e
  | .ok address => .ok (m.get_at_address address)

/-- `Memory.new_frame`. -/
def Memory.new_frame (m : Memory) (frame_name : String) : Memory :=
  { m with stack := m.stack.new_frame frame_name }

/-- `Memory.del_frame`. -/
def Memory.del_frame (m : Memory) : Except Err Memory :=
  match m.stack.del_frame with
  | .error e => .error e
  | .ok s => .ok { m with stack := s }

/-- `Memory.new_scope`: `self.stack.curr_frame.new_scope()`; with an empty
stack `curr_frame` is `None` and the attribute access raises. -/
def Memory.new_scope (m : Memory) : Except Err Memory :=
  match m.stack.frames with
  | [] => .error .attributeError
  | f :: rest =>
    match f.new_scope with
    | .error e => .error e
    | .ok f' => .ok { m with stack := ⟨f' :: rest⟩ }

/-- `Memory.del_scope`: `self.stack.curr_frame.del_scope()`; with an empty
stack `curr_frame` is `None` and the attribute access raises. -/
def Memory.del_scope (m : Memory) : Except Err Memory :=
  match m.stack.frames with
  | [] => .error .attributeError
  | f :: rest =>
    match f.del_scope with
    | .error e => .error e
    | .ok f' => .ok { m with stack := ⟨f' :: rest⟩ }

/-- The value `Memory.declare` stores at the fresh address, as a function of
the declared type (mirroring the classification chain in the source): a
pointer default for a trailing `*`, a numeric default for a registered
primitive type, Python `None` otherwise.  `fr` is the freshness counter at
that point. -/
def declValue (ty : String) (fr : Nat) : Value :=
  if ty.back == '*' then .pointer ty
  else if types_py.contains ty then .number ty fr
  else .none_val

/-- The freshness counter after `Memory.declare` (it advances exactly when a
`Number` default is constructed). -/
def declFresh (ty : String) (fr : Nat) : Nat :=
  if ty.back == '*' then fr
  else if types_py.contains ty then fr + 1
  else fr

/-- The scope `Memory.declare` binds into: the global scope when the call
stack is empty, otherwise the current frame's current scope. -/
def Memory.activeScope (m : Memory) : Scope :=
  match m.stack.frames with
  | [] => m.global_scope
  | f :: _ => f.curr_scope

/-- A sequence of `declare` calls, stopping at the first error. -/
def declSeq : Memory → List (String × String) → Except Err Memory
  | m, [] => .ok m
  | m, (ty, nm) :: rest =>
    match m.declare ty nm with
    | .error e => .error e
    | .ok m' => declSeq m' rest

/-- The addresses `Memory.malloc` returns along a sequence of `declare`
calls (the cursor value at each step; `malloc` runs before the
classification, so even a failing `declare` has already been issued its
address). -/
def declAddrs : Memory → List (String × String) → List Nat
  | _, [] => []
  | m, (ty, nm) :: rest =>
    m.next_free_address ::
      (match m.declare ty nm with
       | .error _ => []
       | .ok m' => declAddrs m' rest)

/-- The public operations of the memory core, for reasoning about arbitrary
operation sequences. -/
inductive Op where
  | declare (ty nm : String)
  | read (nm : String)
  | write (nm : String) (v : Value)
  | readAt (a : Nat)
  | writeAt (a : Nat) (v : Value)
  | newFrame (n : String)
  | delFrame
  | newScope
  | delScope
  deriving DecidableEq, Repr

/-- One public operation, as the evaluator would invoke it. -/
def Memory.step (m : Memory) : Op → Except Err Memory
  | .declare ty nm => m.declare ty nm
  | .read nm =>
    match m.getItem nm with
    | .error e => .error e
    | .ok (_, m') => .ok m'
  | .write nm v => m.setItem nm v
  | .readAt a => .ok (m.get_at_address a).2
  | .writeAt a v => .ok (m.set_at_address a v)
  | .newFrame n => .ok (m.new_frame n)
  | .delFrame => m.del_frame
  | .newScope => m.new_scope
  | .delScope => m.del_scope

/-- Run a sequence of public operations, stopping at the first error. -/
def Memory.run : Memory → List Op → Except Err Memory
  | m, [] => .ok m
  | m, op :: rest =>
    match m.step op with
    | .error e => .error e
    | .ok m' => Memory.run m' rest

/-- The raw-address arguments of an operation lie in `[STARTING_ADDRESS, N)`
(trivially true for operations that do not take a raw address). -/
def Op.addrOk (N : Nat) : Op → Prop
  | .readAt a => Memory.STARTING_ADDRESS ≤ a ∧ a < N
  | .writeAt a _ => Memory.STARTING_ADDRESS ≤ a ∧ a < N
  | _ => True

/-- Every address bound in this scope or any of its parents lies in
`[lo, hi)`. -/
def Scope.addrsBound (lo hi : Nat) : Scope → Prop
  | .none_scope => True
  | .mk _ p addrs => (∀ x ∈ addrs, lo ≤ x.2 ∧ x.2 < hi) ∧ p.addrsBound lo hi

/-- Every address bound in the frame's scope chain lies in `[lo, hi)`. -/
def Frame.addrsBound (lo hi : Nat) (f : Frame) : Prop :=
  f.curr_scope.addrsBound lo hi

/-- All scope bindings (global and in every frame) lie in
`[STARTING_ADDRESS, next_free_address)`. -/
def Memory.scopesBound (m : Memory) : Prop :=
  m.global_scope.addrsBound Memory.STARTING_ADDRESS m.next_free_address ∧
  ∀ f ∈ m.stack.frames, f.addrsBound Memory.STARTING_ADDRESS m.next_free_address

/-- All raw-storage keys lie in `[STARTING_ADDRESS, N)`. -/
def Memory.rawBound (N : Nat) (m : Memory) : Prop :=
  ∀ a v, rlookup m.raw_memory a = some v →
    Memory.STARTING_ADDRESS ≤ a ∧ a < N

/-- The inductive soundness invariant for operation runs, with `N` a bound
on the final allocator cursor. -/
def Memory.sound (N : Nat) (m : Memory) : Prop :=
  Memory.STARTING_ADDRESS ≤ m.next_free_address ∧
  m.next_free_address ≤ N ∧
  m.scopesBound ∧
  m.rawBound N

/-! ## General lemmas -/

deriving instance DecidableEq for Except

/-- Name resolution reads only the global scope and the stack. -/
theorem Memory.find_key_congr (m m' : Memory) (key : String)
    (hg : m'.global_scope = m.global_scope) (hs : m'.stack = m.stack) :
    m'.find_key key = m.find_key key := by
  unfold Memory.find_key
  rw [hg, hs]

/-- Address resolution reads only the global scope and the stack. -/
theorem Memory.get_address_congr (m m' : Memory) (key : String)
    (hg : m'.global_scope = m.global_scope) (hs : m'.stack = m.stack) :
    m'.get_address key = m.get_address key := by
  unfold Memory.get_address
  rw [Memory.find_key_congr m m' key hg hs]

/-- The one-step unfolding of `rlookup` on a nonempty list. -/
theorem rlookup_cons (k : Nat) (v : Value) (t : List (Nat × Value)) (key : Nat) :
    rlookup ((k, v) :: t) key = if k = key then some v else rlookup t key := rfl

/-- Reading the key just written out of the raw map yields that value. -/
theorem rlookup_cons_self (l : List (Nat × Value)) (a : Nat) (v : Value) :
    rlookup ((a, v) :: l) a = some v := by
  rw [rlookup_cons, if_pos rfl]

/-- Writing one key leaves every other key's raw lookup unchanged. -/
theorem rlookup_cons_ne (l : List (Nat × Value)) (a b : Nat) (v : Value)
    (h : b ≠ a) : rlookup ((a, v) :: l) b = rlookup l b := by
  rw [rlookup_cons, if_neg fun he => h he.symm]

/-! ## C1: write/read round trip -/

/-- Writing a resolved name stores at its address, and the immediate
read-back returns the written value with no further state change. -/
theorem write_read_at_resolved (m : Memory) (k : String) (v : Value) (a : Nat)
    (h : m.get_address k = .ok a) :
    m.setItem k v = .ok (m.set_at_address a v) ∧
    (m.set_at_address a v).getItem k = .ok (v, m.set_at_address a v) := by
  constructor
  · unfold Memory.setItem
    rw [h]
  · have hg : (m.set_at_address a v).get_address k = Except.ok a := by
      rw [Memory.get_address_congr m (m.set_at_address a v) k rfl rfl]
      exact h
    have hread : (m.set_at_address a v).get_at_address a = (v, m.set_at_address a v) := by
      unfold Memory.get_at_address
      rw [show (m.set_at_address a v).raw_memory = (a, v) :: m.raw_memory from rfl,
          rlookup_cons_self]
    simp only [Memory.getItem, hg, hread]

/-- C1: for every variable name resolvable in the current state and every
value, `write(var_name, value)` (`Memory.__setitem__`) followed immediately
by `read(var_name)` (`Memory.__getitem__`) succeeds and returns exactly that
value (and the read performs no further state change). -/
theorem c1_write_read_round_trip (m : Memory) (k : String) (v : Value) (a : Nat)
    (h : m.get_address k = .ok a) :
    ∃ m', m.setItem k v = .ok m' ∧ m'.getItem k = .ok (v, m') :=
  ⟨m.set_at_address a v, (write_read_at_resolved m k v a h).1,
   (write_read_at_resolved m k v a h).2⟩

/-- Witness for C1: a concrete state with `x` bound globally. -/
theorem c1_write_read_round_trip_witness :
    ∃ m', (Memory.mk (Scope.mk "global_scope" .none_scope [("x", 1000000)])
             ⟨[]⟩ [(1000000, Value.number "int" 0)] 1000004 1).setItem "x"
             (Value.extVal 7) = .ok m' ∧
          m'.getItem "x" = .ok (Value.extVal 7, m') :=
  c1_write_read_round_trip _ "x" (Value.extVal 7) 1000000 (by decide)

/-! ## C6: stable uninitialized reads -/

/-- C6: `read_at` (`Memory.get_at_address`) on an address with no stored
entry returns a default numeric-kind value (`Number('int')`), stores it at
that address, and a second read with no intervening write returns the
identical stored value and leaves the state unchanged. -/
theorem c6_stable_uninitialized_read (m : Memory) (addr : Nat)
    (h : rlookup m.raw_memory addr = none) :
    ∃ m1, m.get_at_address addr = (Value.number "int" m.fresh, m1) ∧
      rlookup m1.raw_memory addr = some (Value.number "int" m.fresh) ∧
      m1.get_at_address addr = (Value.number "int" m.fresh, m1) := by
  refine ⟨Memory.mk m.global_scope m.stack
            ((addr, Value.number "int" m.fresh) :: m.raw_memory)
            m.next_free_address (m.fresh + 1), ?_, ?_, ?_⟩
  · unfold Memory.get_at_address
    rw [h]
  · exact rlookup_cons_self _ _ _
  · unfold Memory.get_at_address
    rw [show (Memory.mk m.global_scope m.stack
            ((addr, Value.number "int" m.fresh) :: m.raw_memory)
            m.next_free_address (m.fresh + 1)).raw_memory
          = (addr, Value.number "int" m.fresh) :: m.raw_memory from rfl,
        rlookup_cons_self]

/-- Witness for C6: the never-written address `42` in the initial memory. -/
theorem c6_stable_uninitialized_read_witness :
    ∃ m1, Memory.init.get_at_address 42 = (Value.number "int" Memory.init.fresh, m1) ∧
      rlookup m1.raw_memory 42 = some (Value.number "int" Memory.init.fresh) ∧
      m1.get_at_address 42 = (Value.number "int" Memory.init.fresh, m1) :=
  c6_stable_uninitialized_read Memory.init 42 (by decide)

/-! ## C10: write touches only the resolved address -/

/-- C10: a successful `write(var_name, value)` (`Memory.__setitem__`)
changes the raw storage entry at the single resolved address only: every
other address's stored value, the global scope, the whole call stack (hence
every frame's binding tables), and the allocator cursor are unchanged. -/
theorem c10_write_frame_effect (m : Memory) (k : String) (v : Value) (m' : Memory)
    (h : m.setItem k v = .ok m') :
    ∃ a, m.get_address k = .ok a ∧
      rlookup m'.raw_memory a = some v ∧
      (∀ b, b ≠ a → rlookup m'.raw_memory b = rlookup m.raw_memory b) ∧
      m'.global_scope = m.global_scope ∧
      m'.stack = m.stack ∧
      m'.next_free_address = m.next_free_address ∧
      m'.fresh = m.fresh := by
  unfold Memory.setItem at h
  cases hga : m.get_address k with
  | error e => rw [hga] at h; cases h
  | ok a =>
    rw [hga] at h
    cases h
    exact ⟨a, rfl, rlookup_cons_self _ _ _,
           fun b hb => rlookup_cons_ne _ _ _ _ hb, rfl, rfl, rfl, rfl⟩

/-- Witness for C10: writing `x` in a concrete state with `x` and `y`
bound globally; the entry at `y`'s address is untouched. -/
theorem c10_write_frame_effect_witness :
    ∃ a, (Memory.mk (Scope.mk "global_scope" .none_scope
            [("y", 1000004), ("x", 1000000)]) ⟨[]⟩
            [(1000004, Value.number "int" 1), (1000000, Value.number "int" 0)]
            1000008 2).get_address "x" = .ok a ∧
      rlookup [(1000000, Value.extVal 9), (1000004, Value.number "int" 1),
               (1000000, Value.number "int" 0)] a = some (Value.extVal 9) ∧
      (∀ b, b ≠ a →
        rlookup [(1000000, Value.extVal 9), (1000004, Value.number "int" 1),
                 (1000000, Value.number "int" 0)] b =
        rlookup [(1000004, Value.number "int" 1),
                 (1000000, Value.number "int" 0)] b) ∧
      (Scope.mk "global_scope" .none_scope [("y", 1000004), ("x", 1000000)]) =
        (Scope.mk "global_scope" .none_scope [("y", 1000004), ("x", 1000000)]) ∧
      (⟨[]⟩ : Stack) = ⟨[]⟩ ∧ (1000008 : Nat) = 1000008 ∧ (2 : Nat) = 2 := by
  have := c10_write_frame_effect
    (Memory.mk (Scope.mk "global_scope" .none_scope
      [("y", 1000004), ("x", 1000000)]) ⟨[]⟩
      [(1000004, Value.number "int" 1), (1000000, Value.number "int" 0)]
      1000008 2) "x" (Value.extVal 9)
    (Memory.mk (Scope.mk "global_scope" .none_scope
      [("y", 1000004), ("x", 1000000)]) ⟨[]⟩
      [(1000000, Value.extVal 9), (1000004, Value.number "int" 1),
       (1000000, Value.number "int" 0)]
      1000008 2) (by decide)
  exact this

/-! ## C4: fatal on unknown name -/

/-- C4: resolving a name absent from the active frame's chain and from the
global scope signals a fatal error (`RuntimeError` from `Memory.find_key`
when a frame is active, `KeyError` from `Scope.__getitem__` when the stack
is empty) rather than returning an address. -/
theorem c4_unknown_name_fatal (m : Memory) (key : String)
    (hframe : ∀ f rest, m.stack.frames = f :: rest →
                f.find_key key = Scope.none_scope)
    (hg : m.global_scope.containsKey key = false) :
    ∃ e, m.get_address key = .error e := by
  have hgi : m.global_scope.getItem? key = none := by
    cases h' : m.global_scope.getItem? key with
    | none => rfl
    | some a =>
      unfold Scope.containsKey at hg
      rw [h'] at hg
      cases hg
  cases hf : m.stack.frames with
  | nil =>
    have h1 : m.find_key key = .ok m.global_scope := by
      unfold Memory.find_key
      rw [hf]
    refine ⟨Err.keyError key, ?_⟩
    simp only [Memory.get_address, h1, hgi]
  | cons f rest =>
    have h1 : m.find_key key = .error (Err.runtimeError key) := by
      unfold Memory.find_key
      simp only [hf, hframe f rest hf, hg]
      simp
    refine ⟨Err.runtimeError key, ?_⟩
    simp only [Memory.get_address, h1]

/-- Witness for C4: `resolve_address("undeclared")` with an empty global
scope and an empty call stack is an error. -/
theorem c4_unknown_name_fatal_witness :
    ∃ e, Memory.init.get_address "undeclared" = .error e :=
  c4_unknown_name_fatal Memory.init "undeclared"
    (fun f rest h => nomatch h) (by decide)

/-! ## Lemmas about scope lookup and `declare` -/

/-- The one-step unfolding of `slookup` on a nonempty list. -/
theorem slookup_cons (k : String) (v : Nat) (t : List (String × Nat)) (key : String) :
    slookup ((k, v) :: t) key = if k = key then some v else slookup t key := rfl

/-- A binding just inserted is found by lookup. -/
theorem getItem?_setItem_self (s : Scope) (k : String) (a : Nat) :
    (s.setItem k a).getItem? k = some a := by
  unfold Scope.setItem Scope.getItem? Scope.addresses
  rw [slookup_cons, if_pos rfl]

/-- A scope containing a just-inserted binding reports it. -/
theorem containsKey_setItem_self (s : Scope) (k : String) (a : Nat) :
    (s.setItem k a).containsKey k = true := by
  unfold Scope.containsKey
  rw [getItem?_setItem_self]
  rfl

/-- `declare` on an empty type name always raises (Python `""[-1]`). -/
theorem declare_empty_type (m : Memory) (nm : String) :
    ∃ e, m.declare "" nm = .error e := by
  unfold Memory.declare Memory.malloc
  cases hfr : m.stack.frames with
  | nil => exact ⟨Err.indexError, by simp [hfr]⟩
  | cons f rest =>
    cases hc : f.curr_scope with
    | none_scope => exact ⟨Err.typeError, by simp [hfr, hc]⟩
    | mk n p addrs => exact ⟨Err.indexError, by simp [hfr, hc]⟩

/-- The exact result of a successful global `declare` (empty call stack). -/
theorem declare_ok_global (m : Memory) (ty nm : String)
    (hf : m.stack.frames = []) (hty : ty ≠ "") :
    m.declare ty nm = .ok (Memory.mk
      (m.global_scope.setItem nm m.next_free_address) m.stack
      ((m.next_free_address, declValue ty m.fresh) :: m.raw_memory)
      (m.next_free_address + sizeof ty) (declFresh ty m.fresh)) := by
  unfold Memory.declare Memory.malloc declValue declFresh
  by_cases h1 : ty.back == '*'
  · simp [hf, hty, h1]
  · by_cases h2 : ty ∈ types_py
    · simp [hf, hty, h1, h2]
    · simp [hf, hty, h1, h2]

/-- The exact result of a successful in-frame `declare` (nonempty call
stack whose current frame has a live current scope). -/
theorem declare_ok_frame (m : Memory) (ty nm : String) (f : Frame)
    (rest : List Frame) (n : String) (p : Scope) (addrs : List (String × Nat))
    (hf : m.stack.frames = f :: rest)
    (hc : f.curr_scope = Scope.mk n p addrs)
    (hty : ty ≠ "") :
    m.declare ty nm = .ok (Memory.mk m.global_scope
      ⟨Frame.mk f.frame_name ((Scope.mk n p addrs).setItem nm m.next_free_address) :: rest⟩
      ((m.next_free_address, declValue ty m.fresh) :: m.raw_memory)
      (m.next_free_address + sizeof ty) (declFresh ty m.fresh)) := by
  unfold Memory.declare Memory.malloc declValue declFresh
  by_cases h1 : ty.back == '*'
  · simp [hf, hc, hty, h1]
  · by_cases h2 : ty ∈ types_py
    · simp [hf, hc, hty, h1, h2]
    · simp [hf, hc, hty, h1, h2]

/-! ## C2: shadowing -/

/-- C2: with a call frame active and `nm` already resolvable (to address
`a_out`, holding `v_out`), entering an inner block (`new_scope`), declaring
`nm` there and writing `v_in` to it makes `read(nm)` return the inner
binding's value `v_in`; after the inner block is exited (`del_scope`),
`read(nm)` returns the outer binding's value `v_out` again. -/
theorem c2_shadowing (m : Memory) (fn : String) (rest : List Frame)
    (n : String) (p : Scope) (addrs : List (String × Nat))
    (ty nm : String) (a_out : Nat) (v_out v_in : Value)
    (hf : m.stack.frames = Frame.mk fn (Scope.mk n p addrs) :: rest)
    (hty : ty ≠ "")
    (ha : m.get_address nm = .ok a_out)
    (hv : rlookup m.raw_memory a_out = some v_out)
    (hlt : a_out < m.next_free_address) :
    ∃ m1 m2 m3 m4,
      m.new_scope = .ok m1 ∧
      m1.declare ty nm = .ok m2 ∧
      m2.setItem nm v_in = .ok m3 ∧
      m3.getItem nm = .ok (v_in, m3) ∧
      m3.del_scope = .ok m4 ∧
      m4.getItem nm = .ok (v_out, m4) := by
  have h1 : m.new_scope = .ok (Memory.mk m.global_scope
      ⟨Frame.mk fn (Scope.mk (nextScopeName n) (Scope.mk n p addrs) []) :: rest⟩
      m.raw_memory m.next_free_address m.fresh) := by
    unfold Memory.new_scope Frame.new_scope
    simp [hf]
  have hdecl := declare_ok_frame
    (Memory.mk m.global_scope
      ⟨Frame.mk fn (Scope.mk (nextScopeName n) (Scope.mk n p addrs) []) :: rest⟩
      m.raw_memory m.next_free_address m.fresh)
    ty nm (Frame.mk fn (Scope.mk (nextScopeName n) (Scope.mk n p addrs) []))
    rest (nextScopeName n) (Scope.mk n p addrs) [] rfl rfl hty
  have hga2 : (Memory.mk m.global_scope
      ⟨Frame.mk fn ((Scope.mk (nextScopeName n) (Scope.mk n p addrs) []).setItem
        nm m.next_free_address) :: rest⟩
      ((m.next_free_address, declValue ty m.fresh) :: m.raw_memory)
      (m.next_free_address + sizeof ty) (declFresh ty m.fresh)).get_address nm
      = .ok m.next_free_address := by
    unfold Memory.get_address Memory.find_key
    simp [Frame.find_key, Scope.setItem, Scope.scope_name, Scope.parent_scope,
          Scope.addresses, Scope.findFrom, Scope.containsKey, Scope.getItem?, slookup]
  obtain ⟨h3, h4⟩ := write_read_at_resolved _ nm v_in _ hga2
  have hst : (⟨Frame.mk fn (Scope.mk n p addrs) :: rest⟩ : Stack) = m.stack := by
    rw [← hf]
  have hne : a_out ≠ m.next_free_address := Nat.ne_of_lt hlt
  have hga4 : (Memory.mk m.global_scope
      ⟨Frame.mk fn (Scope.mk n p addrs) :: rest⟩
      ((m.next_free_address, v_in) ::
        (m.next_free_address, declValue ty m.fresh) :: m.raw_memory)
      (m.next_free_address + sizeof ty) (declFresh ty m.fresh)).get_address nm
      = .ok a_out := by
    rw [Memory.get_address_congr m (Memory.mk m.global_scope
      (⟨Frame.mk fn (Scope.mk n p addrs) :: rest⟩ : Stack)
      ((m.next_free_address, v_in) ::
        (m.next_free_address, declValue ty m.fresh) :: m.raw_memory)
      (m.next_free_address + sizeof ty) (declFresh ty m.fresh)) nm rfl hst]
    exact ha
  have hrl : rlookup ((m.next_free_address, v_in) ::
      (m.next_free_address, declValue ty m.fresh) :: m.raw_memory) a_out
      = some v_out := by
    rw [rlookup_cons_ne _ _ _ _ hne, rlookup_cons_ne _ _ _ _ hne]
    exact hv
  refine ⟨_, _, _, Memory.mk m.global_scope
      ⟨Frame.mk fn (Scope.mk n p addrs) :: rest⟩
      ((m.next_free_address, v_in) ::
        (m.next_free_address, declValue ty m.fresh) :: m.raw_memory)
      (m.next_free_address + sizeof ty) (declFresh ty m.fresh),
    h1, hdecl, h3, h4, ?_, ?_⟩
  · unfold Memory.del_scope Frame.del_scope
    simp [Memory.set_at_address, Scope.setItem, Scope.scope_name, Scope.parent_scope,
          Scope.addresses]
  · simp only [Memory.getItem, hga4, Memory.get_at_address, hrl]

/-- Witness for C2: global `x` holding its default shadowed by a block-local
`x` inside call `f`, written to `5`, then unshadowed on block exit. -/
theorem c2_shadowing_witness :
    ∃ m1 m2 m3 m4,
      (Memory.mk (Scope.mk "global_scope" .none_scope [("x", 1000000)])
        ⟨[Frame.make "f"]⟩ [(1000000, Value.number "int" 0)]
        1000004 1).new_scope = .ok m1 ∧
      m1.declare "int" "x" = .ok m2 ∧
      m2.setItem "x" (Value.extVal 5) = .ok m3 ∧
      m3.getItem "x" = .ok (Value.extVal 5, m3) ∧
      m3.del_scope = .ok m4 ∧
      m4.getItem "x" = .ok (Value.number "int" 0, m4) :=
  c2_shadowing _ "f" [] "f.scope_00" .none_scope [] "int" "x" 1000000
    (Value.number "int" 0) (Value.extVal 5)
    rfl (by decide) (by decide) (by decide) (by decide)

/-! ## C5: monotonic addresses -/

/-- Every size the modelled external `sizeof` returns is positive. -/
theorem sizeof_pos (ty : String) : 0 < sizeof ty := by
  unfold sizeof
  repeat' split
  all_goals norm_num

/-- A successful `declare` advances the cursor by exactly `sizeof ty`. -/
theorem declare_ok_next (m : Memory) (ty nm : String) (m' : Memory)
    (h : m.declare ty nm = .ok m') :
    m'.next_free_address = m.next_free_address + sizeof ty := by
  by_cases hty : ty = ""
  · subst hty
    obtain ⟨e, he⟩ := declare_empty_type m nm
    rw [he] at h
    cases h
  · cases hf : m.stack.frames with
    | nil =>
      rw [declare_ok_global m ty nm hf hty] at h
      cases h
      rfl
    | cons f rest =>
      cases hc : f.curr_scope with
      | none_scope =>
        have : m.declare ty nm = .error Err.typeError := by
          unfold Memory.declare Memory.malloc
          simp [hf, hc]
        rw [this] at h
        cases h
      | mk n p addrs =>
        rw [declare_ok_frame m ty nm f rest n p addrs hf hc hty] at h
        cases h
        rfl

/-- A successful `declare` strictly advances the cursor. -/
theorem declare_next_lt (m : Memory) (ty nm : String) (m' : Memory)
    (h : m.declare ty nm = .ok m') :
    m.next_free_address < m'.next_free_address := by
  rw [declare_ok_next m ty nm m' h]
  exact Nat.lt_add_of_pos_right (sizeof_pos ty)

/-- Every address issued along a `declare` sequence is at least the starting
cursor. -/
theorem declAddrs_lb (ds : List (String × String)) (m : Memory) :
    ∀ a ∈ declAddrs m ds, m.next_free_address ≤ a := by
  induction ds generalizing m with
  | nil => intro a ha; cases ha
  | cons d rest ih =>
    obtain ⟨ty, nm⟩ := d
    intro a ha
    unfold declAddrs at ha
    rcases List.mem_cons.1 ha with h | h
    · exact h ▸ Nat.le_refl _
    · cases hd : m.declare ty nm with
      | error e =>
        rw [hd] at h
        cases h
      | ok m' =>
        rw [hd] at h
        exact Nat.le_of_lt (Nat.lt_of_lt_of_le (declare_next_lt m ty nm m' hd)
          (ih m' a h))

/-- C5: along every sequence of `declare` calls, the addresses returned by
`Memory.malloc` are strictly increasing — each newly allocated address is
strictly greater than every previously issued one — and in particular no
address is ever reused. -/
theorem c5_monotonic_addresses (m : Memory) (ds : List (String × String)) :
    List.Pairwise (· < ·) (declAddrs m ds) ∧ (declAddrs m ds).Nodup := by
  have hp : List.Pairwise (· < ·) (declAddrs m ds) := by
    induction ds generalizing m with
    | nil => exact List.Pairwise.nil
    | cons d rest ih =>
      obtain ⟨ty, nm⟩ := d
      unfold declAddrs
      cases hd : m.declare ty nm with
      | error e => simp
      | ok m' =>
        refine List.Pairwise.cons ?_ (ih m')
        intro a ha
        exact Nat.lt_of_lt_of_le (declare_next_lt m ty nm m' hd)
          (declAddrs_lb rest m' a ha)
  exact ⟨hp, hp.imp Nat.ne_of_lt⟩

/-! ## C8: paired-exit violations -/

/-- Counterexample to C8: `del_scope` at a frame's base scope is not
defensively checked — it returns successfully and silently sets the current
scope to `None` (a corrupted frame), instead of signalling an error. -/
theorem c8_paired_exit_counterexample :
    (Memory.init.new_frame "f").del_scope =
      .ok (Memory.mk (Scope.mk "global_scope" .none_scope [])
        ⟨[Frame.mk "f" Scope.none_scope]⟩ [] 1000000 0) := by
  decide

/-- C8 amended: `del_frame` with an empty call stack fails fast
(`IndexError` from `list.pop`), and `del_scope` with an empty call stack
fails fast (`AttributeError` on `curr_frame = None`); but `del_scope` when
the current scope is the frame's base scope does not signal an error: it
succeeds, setting the frame's current scope to `None` (so the corruption
surfaces only in later operations). -/
theorem c8_paired_exit_amended :
    (∀ m : Memory, m.stack.frames = [] →
       m.del_frame = .error Err.indexError ∧
       m.del_scope = .error Err.attributeError) ∧
    (∀ (m : Memory) (f : Frame) (rest : List Frame) (n : String)
       (addrs : List (String × Nat)),
       m.stack.frames = f :: rest →
       f.curr_scope = Scope.mk n Scope.none_scope addrs →
       m.del_scope = .ok (Memory.mk m.global_scope
         ⟨Frame.mk f.frame_name Scope.none_scope :: rest⟩
         m.raw_memory m.next_free_address m.fresh)) := by
  constructor
  · intro m h
    constructor
    · unfold Memory.del_frame Stack.del_frame
      simp [h]
    · unfold Memory.del_scope
      simp [h]
  · intro m f rest n addrs h1 h2
    unfold Memory.del_scope Frame.del_scope
    simp [h1, h2]

/-- Witness for C8 amended: both conjuncts at concrete states. -/
theorem c8_paired_exit_amended_witness :
    (Memory.init.del_frame = .error Err.indexError ∧
     Memory.init.del_scope = .error Err.attributeError) ∧
    (Memory.init.new_frame "f").del_scope =
      .ok (Memory.mk (Scope.mk "global_scope" .none_scope [])
        ⟨[Frame.mk "f" Scope.none_scope]⟩ [] 1000000 0) :=
  ⟨c8_paired_exit_amended.1 Memory.init rfl,
   c8_paired_exit_amended.2 (Memory.init.new_frame "f")
     (Frame.make "f") [] "f.scope_00" [] rfl rfl⟩

/-! ## C3: frame isolation -/

/-- A freshly created frame resolves no name in its own chain. -/
theorem Frame.make_find_key (n key : String) :
    (Frame.make n).find_key key = Scope.none_scope := by
  unfold Frame.make Frame.find_key
  simp [Scope.findFrom, Scope.containsKey, Scope.getItem?, Scope.addresses, slookup]

/-- C3: a name declared inside one call's frame is not resolvable from a
different, later-entered call's frame: after entering call `fa`, declaring
`nm` there, and then entering call `fb`, resolving `nm` consults only `fb`'s
(empty) chain and then the global scope — it succeeds exactly on `nm`'s
global binding and is a fatal `RuntimeError` otherwise. -/
theorem c3_frame_isolation (m : Memory) (ty nm fa fb : String) (hty : ty ≠ "") :
    ∃ m2, (m.new_frame fa).declare ty nm = .ok m2 ∧
      (m2.new_frame fb).get_address nm =
        (match m.global_scope.getItem? nm with
         | some a => Except.ok a
         | none => Except.error (Err.runtimeError nm)) := by
  have hdecl := declare_ok_frame (m.new_frame fa) ty nm (Frame.make fa)
    m.stack.frames (fa ++ ".scope_00") Scope.none_scope [] rfl rfl hty
  refine ⟨_, hdecl, ?_⟩
  have hfk : (Frame.make fb).find_key nm = Scope.none_scope :=
    Frame.make_find_key fb nm
  unfold Memory.get_address Memory.find_key
  cases hgi : m.global_scope.getItem? nm with
  | some a =>
    have hck : m.global_scope.containsKey nm = true := by
      unfold Scope.containsKey
      rw [hgi]
      rfl
    simp [Memory.new_frame, Stack.new_frame, hfk, hck, hgi]
  | none =>
    have hck : m.global_scope.containsKey nm = false := by
      unfold Scope.containsKey
      rw [hgi]
      rfl
    simp [Memory.new_frame, Stack.new_frame, hfk, hck]

/-- Witness for C3: `x` declared inside call `A` is not resolvable from a
later-entered call `B` when the global scope is empty. -/
theorem c3_frame_isolation_witness :
    ∃ m2, (Memory.init.new_frame "A").declare "int" "x" = .ok m2 ∧
      (m2.new_frame "B").get_address "x" =
        (match (Memory.init.global_scope).getItem? "x" with
         | some a => Except.ok a
         | none => Except.error (Err.runtimeError "x")) :=
  c3_frame_isolation Memory.init "int" "x" "A" "B" (by decide)

/-! ## C7: declaration classification -/

/-- C7: a successful `declare(type_name, var_name)` binds `var_name` to the
freshly allocated address (the allocator cursor) in the active scope (global
if the call stack is empty, else the current frame's current scope), and
initializes raw storage there with: a default pointer-kind value when
`type_name` ends in `*`, a default numeric-kind value when `type_name` is a
registered primitive type, the null placeholder otherwise; then the cursor
has advanced by `sizeof(type_name)`. -/
theorem c7_declare_classification (m : Memory) (ty nm : String) (hty : ty ≠ "")
    (hsc : ∀ f rest, m.stack.frames = f :: rest →
             f.curr_scope ≠ Scope.none_scope) :
    ∃ m', m.declare ty nm = .ok m' ∧
      m'.activeScope.getItem? nm = some m.next_free_address ∧
      rlookup m'.raw_memory m.next_free_address =
        some (if ty.back == '*' then Value.pointer ty
              else if types_py.contains ty then Value.number ty m.fresh
              else Value.none_val) ∧
      m'.next_free_address = m.next_free_address + sizeof ty := by
  cases hf : m.stack.frames with
  | nil =>
    refine ⟨_, declare_ok_global m ty nm hf hty, ?_, ?_, rfl⟩
    · have : (Memory.mk (m.global_scope.setItem nm m.next_free_address) m.stack
          ((m.next_free_address, declValue ty m.fresh) :: m.raw_memory)
          (m.next_free_address + sizeof ty) (declFresh ty m.fresh)).activeScope
          = m.global_scope.setItem nm m.next_free_address := by
        unfold Memory.activeScope
        simp [hf]
      rw [this, getItem?_setItem_self]
    · rw [show (Memory.mk (m.global_scope.setItem nm m.next_free_address) m.stack
          ((m.next_free_address, declValue ty m.fresh) :: m.raw_memory)
          (m.next_free_address + sizeof ty) (declFresh ty m.fresh)).raw_memory
            = (m.next_free_address, declValue ty m.fresh) :: m.raw_memory from rfl,
          rlookup_cons_self]
      rfl
  | cons f rest =>
    cases hc : f.curr_scope with
    | none_scope => exact absurd hc (hsc f rest hf)
    | mk n p addrs =>
      refine ⟨_, declare_ok_frame m ty nm f rest n p addrs hf hc hty, ?_, ?_, rfl⟩
      · have : (Memory.mk m.global_scope
            ⟨Frame.mk f.frame_name ((Scope.mk n p addrs).setItem nm m.next_free_address) :: rest⟩
            ((m.next_free_address, declValue ty m.fresh) :: m.raw_memory)
            (m.next_free_address + sizeof ty) (declFresh ty m.fresh)).activeScope
            = (Scope.mk n p addrs).setItem nm m.next_free_address := by
          unfold Memory.activeScope
          rfl
        rw [this, getItem?_setItem_self]
      · rw [show (Memory.mk m.global_scope
            ⟨Frame.mk f.frame_name ((Scope.mk n p addrs).setItem nm m.next_free_address) :: rest⟩
            ((m.next_free_address, declValue ty m.fresh) :: m.raw_memory)
            (m.next_free_address + sizeof ty) (declFresh ty m.fresh)).raw_memory
              = (m.next_free_address, declValue ty m.fresh) :: m.raw_memory from rfl,
            rlookup_cons_self]
        rfl

/-! ## C9: storage keys versus issued addresses -/

/-- `addrsBound` is monotone in the upper bound. -/
theorem Scope.addrsBound_mono (s : Scope) (lo hi hi' : Nat) (hh : hi ≤ hi')
    (hb : s.addrsBound lo hi) : s.addrsBound lo hi' := by
  induction s with
  | none_scope => trivial
  | mk n p addrs ih =>
    unfold Scope.addrsBound at hb ⊢
    exact ⟨fun x hx => ⟨(hb.1 x hx).1, Nat.lt_of_lt_of_le (hb.1 x hx).2 hh⟩,
           ih hb.2⟩

/-- A successful association-list lookup is list membership. -/
theorem slookup_mem (l : List (String × Nat)) (k : String) (a : Nat)
    (h : slookup l k = some a) : (k, a) ∈ l := by
  induction l with
  | nil => cases h
  | cons x t ih =>
    obtain ⟨xk, xv⟩ := x
    rw [slookup_cons] at h
    by_cases he : xk = k
    · subst he
      rw [if_pos rfl] at h
      cases h
      exact List.mem_cons_self _ _
    · rw [if_neg he] at h
      exact List.mem_cons_of_mem _ (ih h)

/-- A binding found in a bounded scope is bounded. -/
theorem getItem?_bound (s : Scope) (lo hi a : Nat) (k : String)
    (hb : s.addrsBound lo hi) (h : s.getItem? k = some a) :
    lo ≤ a ∧ a < hi := by
  cases s with
  | none_scope =>
    simp [Scope.getItem?, Scope.addresses, slookup] at h
  | mk n p addrs =>
    have hm : (k, a) ∈ addrs := slookup_mem addrs k a h
    unfold Scope.addrsBound at hb
    exact hb.1 (k, a) hm

/-- The scope `findFrom` returns is bounded when the chain is. -/
theorem findFrom_addrsBound (s : Scope) (key : String) (lo hi : Nat)
    (hb : s.addrsBound lo hi) : (s.findFrom key).addrsBound lo hi := by
  induction s with
  | none_scope => trivial
  | mk n p addrs ih =>
    unfold Scope.findFrom
    by_cases hc : (Scope.mk n p addrs).containsKey key = true
    · rw [if_pos hc]
      exact hb
    · rw [if_neg hc]
      unfold Scope.addrsBound at hb
      exact ih hb.2

/-- A successfully resolved address lies inside the issued range when all
scope bindings do. -/
theorem get_address_bound (m : Memory) (k : String) (a : Nat)
    (hsc : m.scopesBound) (h : m.get_address k = .ok a) :
    Memory.STARTING_ADDRESS ≤ a ∧ a < m.next_free_address := by
  unfold Memory.get_address Memory.find_key at h
  cases hf : m.stack.frames with
  | nil =>
    simp only [hf] at h
    cases hg : m.global_scope.getItem? k with
    | none => rw [hg] at h; cases h
    | some b =>
      rw [hg] at h
      cases h
      exact getItem?_bound m.global_scope _ _ a k hsc.1 hg
  | cons f rest =>
    simp only [hf] at h
    have hfb : (f.find_key k).addrsBound Memory.STARTING_ADDRESS m.next_free_address := by
      have : f ∈ m.stack.frames := by
        rw [hf]
        exact List.mem_cons_self _ _
      exact findFrom_addrsBound f.curr_scope k _ _ (hsc.2 f this)
    cases hfk : f.find_key k with
    | none_scope =>
      rw [hfk] at h
      by_cases hgc : m.global_scope.containsKey k = true
      · rw [if_pos hgc] at h
        simp only [] at h
        cases hg : m.global_scope.getItem? k with
        | none => rw [hg] at h; cases h
        | some b =>
          rw [hg] at h
          cases h
          exact getItem?_bound m.global_scope _ _ a k hsc.1 hg
      · rw [if_neg hgc] at h
        cases h
    | mk ns ps asb =>
      rw [hfk] at h
      simp only [] at h
      cases hg : (Scope.mk ns ps asb).getItem? k with
      | none => rw [hg] at h; cases h
      | some b =>
        rw [hg] at h
        cases h
        rw [hfk] at hfb
        exact getItem?_bound _ _ _ a k hfb hg

/-- The two possible state outcomes of `get_at_address`. -/
theorem get_at_address_cases (m : Memory) (a : Nat) :
    (m.get_at_address a).2 = m ∨
    (m.get_at_address a).2 = Memory.mk m.global_scope m.stack
      ((a, Value.number "int" m.fresh) :: m.raw_memory)
      m.next_free_address (m.fresh + 1) := by
  unfold Memory.get_at_address
  cases h : rlookup m.raw_memory a with
  | some v => left; rfl
  | none => right; rfl

/-- The result shape of a successful `__getitem__`. -/
theorem getItem_ok_shape (m : Memory) (nm : String) (pr : Value × Memory)
    (h : m.getItem nm = .ok pr) :
    ∃ a, m.get_address nm = .ok a ∧ pr = m.get_at_address a := by
  unfold Memory.getItem at h
  cases hg : m.get_address nm with
  | error e => rw [hg] at h; cases h
  | ok a =>
    rw [hg] at h
    cases h
    exact ⟨a, rfl, rfl⟩

/-- The result shape of a successful `__setitem__`. -/
theorem setItem_ok_shape (m : Memory) (nm : String) (v : Value) (m' : Memory)
    (h : m.setItem nm v = .ok m') :
    ∃ a, m.get_address nm = .ok a ∧ m' = m.set_at_address a v := by
  unfold Memory.setItem at h
  cases hg : m.get_address nm with
  | error e => rw [hg] at h; cases h
  | ok a =>
    rw [hg] at h
    cases h
    exact ⟨a, rfl, rfl⟩

/-- `declare` with a `None` current scope raises `TypeError`. -/
theorem declare_none_scope (m : Memory) (ty nm : String) (f : Frame)
    (rest : List Frame) (hf : m.stack.frames = f :: rest)
    (hc : f.curr_scope = Scope.none_scope) :
    m.declare ty nm = .error Err.typeError := by
  unfold Memory.declare Memory.malloc
  simp [hf, hc]

/-- Inserting one binding preserves scope-chain boundedness. -/
theorem setItem_addrsBound (s : Scope) (lo hi hi' a : Nat) (nm : String)
    (hb : s.addrsBound lo hi) (hh : hi ≤ hi') (ha1 : lo ≤ a) (ha2 : a < hi') :
    (s.setItem nm a).addrsBound lo hi' := by
  cases s with
  | none_scope =>
    unfold Scope.setItem Scope.scope_name Scope.parent_scope Scope.addresses
      Scope.addrsBound
    refine ⟨fun x hx => ?_, trivial⟩
    rcases List.mem_singleton.1 hx with rfl
    exact ⟨ha1, ha2⟩
  | mk n p addrs =>
    unfold Scope.setItem Scope.scope_name Scope.parent_scope Scope.addresses
      Scope.addrsBound
    unfold Scope.addrsBound at hb
    refine ⟨fun x hx => ?_, Scope.addrsBound_mono p lo hi hi' hh hb.2⟩
    rcases List.mem_cons.1 hx with rfl | hx
    · exact ⟨ha1, ha2⟩
    · exact ⟨(hb.1 x hx).1, Nat.lt_of_lt_of_le (hb.1 x hx).2 hh⟩

/-- Adding one in-range raw entry preserves raw-key boundedness. -/
theorem rawBound_cons (N a : Nat) (v : Value) (l : List (Nat × Value))
    (hl : ∀ b w, rlookup l b = some w →
            Memory.STARTING_ADDRESS ≤ b ∧ b < N)
    (ha : Memory.STARTING_ADDRESS ≤ a ∧ a < N) :
    ∀ b w, rlookup ((a, v) :: l) b = some w →
      Memory.STARTING_ADDRESS ≤ b ∧ b < N := by
  intro b w hb
  rw [rlookup_cons] at hb
  by_cases he : a = b
  · subst he
    exact ha
  · rw [if_neg he] at hb
    exact hl b w hb

/-- A single public operation preserves the soundness invariant. -/
theorem step_sound (N : Nat) (m m' : Memory) (op : Op)
    (h : m.step op = .ok m')
    (hs : m.sound N) (hN : m'.next_free_address ≤ N) (hop : op.addrOk N) :
    m'.sound N := by
  obtain ⟨hstart, hle, hscopes, hraw⟩ := hs
  cases op with
  | declare ty nm =>
    by_cases hty : ty = ""
    · subst hty
      obtain ⟨e, he⟩ := declare_empty_type m nm
      simp only [Memory.step] at h
      rw [he] at h
      cases h
    · simp only [Memory.step] at h
      cases hf : m.stack.frames with
      | nil =>
        rw [declare_ok_global m ty nm hf hty] at h
        cases h
        have hlt : m.next_free_address < m.next_free_address + sizeof ty :=
          Nat.lt_add_of_pos_right (sizeof_pos ty)
        refine ⟨Nat.le_of_lt (Nat.lt_of_le_of_lt hstart hlt), hN, ⟨?_, ?_⟩, ?_⟩
        · exact setItem_addrsBound m.global_scope _ _ _ _ nm hscopes.1
            (Nat.le_of_lt hlt) hstart hlt
        · intro f hfm
          exact Scope.addrsBound_mono f.curr_scope _ _ _ (Nat.le_of_lt hlt)
            (hscopes.2 f hfm)
        · exact rawBound_cons N m.next_free_address _ m.raw_memory hraw
            ⟨hstart, Nat.lt_of_lt_of_le hlt hN⟩
      | cons f rest =>
        cases hc : f.curr_scope with
        | none_scope =>
          rw [declare_none_scope m ty nm f rest hf hc] at h
          cases h
        | mk n p addrs =>
          rw [declare_ok_frame m ty nm f rest n p addrs hf hc hty] at h
          cases h
          have hlt : m.next_free_address < m.next_free_address + sizeof ty :=
            Nat.lt_add_of_pos_right (sizeof_pos ty)
          have hfm : f ∈ m.stack.frames := by
            rw [hf]
            exact List.mem_cons_self _ _
          refine ⟨Nat.le_of_lt (Nat.lt_of_le_of_lt hstart hlt), hN, ⟨?_, ?_⟩, ?_⟩
          · exact Scope.addrsBound_mono m.global_scope _ _ _ (Nat.le_of_lt hlt)
              hscopes.1
          · intro f' hf'
            rcases List.mem_cons.1 hf' with rfl | hf'
            · show ((Scope.mk n p addrs).setItem nm m.next_free_address).addrsBound _ _
              have hb : f.curr_scope.addrsBound Memory.STARTING_ADDRESS
                  m.next_free_address := hscopes.2 f hfm
              rw [hc] at hb
              exact setItem_addrsBound _ _ _ _ _ nm hb (Nat.le_of_lt hlt)
                hstart hlt
            · have : f' ∈ m.stack.frames := by
                rw [hf]
                exact List.mem_cons_of_mem _ hf'
              exact Scope.addrsBound_mono f'.curr_scope _ _ _ (Nat.le_of_lt hlt)
                (hscopes.2 f' this)
          · exact rawBound_cons N m.next_free_address _ m.raw_memory hraw
              ⟨hstart, Nat.lt_of_lt_of_le hlt hN⟩
  | read nm =>
    simp only [Memory.step] at h
    cases hg : m.getItem nm with
    | error e => rw [hg] at h; cases h
    | ok pr =>
      rw [hg] at h
      simp only [] at h
      obtain ⟨a, hga, hpr⟩ := getItem_ok_shape m nm pr hg
      have hab := get_address_bound m nm a hscopes hga
      injection h with h2
      rcases get_at_address_cases m a with hca | hca
      · rw [← h2, hpr, hca]
        exact ⟨hstart, hle, hscopes, hraw⟩
      · rw [← h2, hpr, hca]
        exact ⟨hstart, hle, hscopes,
          rawBound_cons N a _ m.raw_memory hraw
            ⟨hab.1, Nat.lt_of_lt_of_le hab.2 hle⟩⟩
  | write nm v =>
    simp only [Memory.step] at h
    obtain ⟨a, hga, hm'⟩ := setItem_ok_shape m nm v m' h
    have hab := get_address_bound m nm a hscopes hga
    rw [hm']
    exact ⟨hstart, hle, hscopes,
      rawBound_cons N a v m.raw_memory hraw
        ⟨hab.1, Nat.lt_of_lt_of_le hab.2 hle⟩⟩
  | readAt a =>
    simp only [Memory.step] at h
    cases h
    rcases get_at_address_cases m a with hca | hca
    · rw [hca]
      exact ⟨hstart, hle, hscopes, hraw⟩
    · rw [hca]
      exact ⟨hstart, hle, hscopes,
        rawBound_cons N a _ m.raw_memory hraw hop⟩
  | writeAt a v =>
    simp only [Memory.step] at h
    cases h
    exact ⟨hstart, hle, hscopes,
      rawBound_cons N a v m.raw_memory hraw hop⟩
  | newFrame n =>
    simp only [Memory.step] at h
    cases h
    refine ⟨hstart, hle, ⟨hscopes.1, ?_⟩, hraw⟩
    intro f hfm
    rcases List.mem_cons.1 hfm with rfl | hfm
    · show (Scope.mk (n ++ ".scope_00") Scope.none_scope []).addrsBound _ _
      exact ⟨fun x hx => absurd hx (List.not_mem_nil x), trivial⟩
    · exact hscopes.2 f hfm
  | delFrame =>
    simp only [Memory.step] at h
    unfold Memory.del_frame Stack.del_frame at h
    cases hf : m.stack.frames with
    | nil => rw [hf] at h; cases h
    | cons f t =>
      rw [hf] at h
      simp only [] at h
      cases h
      refine ⟨hstart, hle, ⟨hscopes.1, ?_⟩, hraw⟩
      intro f' hf'
      have : f' ∈ m.stack.frames := by
        rw [hf]
        exact List.mem_cons_of_mem _ hf'
      exact hscopes.2 f' this
  | newScope =>
    simp only [Memory.step] at h
    unfold Memory.new_scope Frame.new_scope at h
    cases hf : m.stack.frames with
    | nil => rw [hf] at h; cases h
    | cons f rest =>
      rw [hf] at h
      simp only [] at h
      cases hc : f.curr_scope with
      | none_scope => rw [hc] at h; cases h
      | mk n p addrs =>
        rw [hc] at h
        simp only [] at h
        cases h
        refine ⟨hstart, hle, ⟨hscopes.1, ?_⟩, hraw⟩
        intro f' hf'
        rcases List.mem_cons.1 hf' with rfl | hf'
        · show (Scope.mk (nextScopeName n) (Scope.mk n p addrs) []).addrsBound _ _
          have hb : f.curr_scope.addrsBound Memory.STARTING_ADDRESS
              m.next_free_address := by
            refine hscopes.2 f ?_
            rw [hf]
            exact List.mem_cons_self _ _
          rw [hc] at hb
          exact ⟨fun x hx => absurd hx (List.not_mem_nil x), hb⟩
        · refine hscopes.2 f' ?_
          rw [hf]
          exact List.mem_cons_of_mem _ hf'
  | delScope =>
    simp only [Memory.step] at h
    unfold Memory.del_scope Frame.del_scope at h
    cases hf : m.stack.frames with
    | nil => rw [hf] at h; cases h
    | cons f rest =>
      rw [hf] at h
      simp only [] at h
      cases hc : f.curr_scope with
      | none_scope => rw [hc] at h; cases h
      | mk n p addrs =>
        rw [hc] at h
        simp only [] at h
        cases h
        refine ⟨hstart, hle, ⟨hscopes.1, ?_⟩, hraw⟩
        intro f' hf'
        rcases List.mem_cons.1 hf' with rfl | hf'
        · show p.addrsBound _ _
          have hb : f.curr_scope.addrsBound Memory.STARTING_ADDRESS
              m.next_free_address := by
            refine hscopes.2 f ?_
            rw [hf]
            exact List.mem_cons_self _ _
          rw [hc] at hb
          unfold Scope.addrsBound at hb
          exact hb.2
        · refine hscopes.2 f' ?_
          rw [hf]
          exact List.mem_cons_of_mem _ hf'

/-- One public operation never decreases the allocator cursor. -/
theorem step_next_le (m : Memory) (op : Op) (m' : Memory)
    (h : m.step op = .ok m') :
    m.next_free_address ≤ m'.next_free_address := by
  cases op with
  | declare ty nm => exact Nat.le_of_lt (declare_next_lt m ty nm m' h)
  | read nm =>
    simp only [Memory.step] at h
    cases hg : m.getItem nm with
    | error e => rw [hg] at h; cases h
    | ok pr =>
      rw [hg] at h
      simp only [] at h
      obtain ⟨a, _, hpr⟩ := getItem_ok_shape m nm pr hg
      injection h with h2
      rcases get_at_address_cases m a with hca | hca <;>
        rw [← h2, hpr, hca]
  | write nm v =>
    obtain ⟨a, _, hm'⟩ := setItem_ok_shape m nm v m' h
    rw [hm']
    exact Nat.le_refl _
  | readAt a =>
    simp only [Memory.step] at h
    cases h
    rcases get_at_address_cases m a with hca | hca <;> rw [hca]
  | writeAt a v =>
    simp only [Memory.step] at h
    cases h
    exact Nat.le_refl _
  | newFrame n =>
    simp only [Memory.step] at h
    cases h
    exact Nat.le_refl _
  | delFrame =>
    simp only [Memory.step] at h
    unfold Memory.del_frame Stack.del_frame at h
    cases hf : m.stack.frames with
    | nil => rw [hf] at h; cases h
    | cons f t =>
      rw [hf] at h
      simp only [] at h
      cases h
      exact Nat.le_refl _
  | newScope =>
    simp only [Memory.step] at h
    unfold Memory.new_scope Frame.new_scope at h
    cases hf : m.stack.frames with
    | nil => rw [hf] at h; cases h
    | cons f rest =>
      rw [hf] at h
      simp only [] at h
      cases hc : f.curr_scope with
      | none_scope => rw [hc] at h; cases h
      | mk n p addrs =>
        rw [hc] at h
        simp only [] at h
        cases h
        exact Nat.le_refl _
  | delScope =>
    simp only [Memory.step] at h
    unfold Memory.del_scope Frame.del_scope at h
    cases hf : m.stack.frames with
    | nil => rw [hf] at h; cases h
    | cons f rest =>
      rw [hf] at h
      simp only [] at h
      cases hc : f.curr_scope with
      | none_scope => rw [hc] at h; cases h
      | mk n p addrs =>
        rw [hc] at h
        simp only [] at h
        cases h
        exact Nat.le_refl _

/-- A run of public operations never decreases the allocator cursor. -/
theorem run_next_le (ops : List Op) (m m' : Memory)
    (h : m.run ops = .ok m') :
    m.next_free_address ≤ m'.next_free_address := by
  induction ops generalizing m with
  | nil =>
    unfold Memory.run at h
    cases h
    exact Nat.le_refl _
  | cons op rest ih =>
    unfold Memory.run at h
    cases hstep : m.step op with
    | error e => rw [hstep] at h; cases h
    | ok m1 =>
      rw [hstep] at h
      simp only [] at h
      exact Nat.le_trans (step_next_le m op m1 hstep) (ih m1 h)

/-- A run of public operations preserves the soundness invariant, for any
`N` at least the final cursor. -/
theorem run_sound (N : Nat) (ops : List Op) (m m' : Memory)
    (h : m.run ops = .ok m')
    (hs : m.sound N) (hN : m'.next_free_address ≤ N)
    (hops : ∀ op ∈ ops, op.addrOk N) :
    m'.sound N := by
  induction ops generalizing m with
  | nil =>
    unfold Memory.run at h
    cases h
    exact hs
  | cons op rest ih =>
    unfold Memory.run at h
    cases hstep : m.step op with
    | error e => rw [hstep] at h; cases h
    | ok m1 =>
      rw [hstep] at h
      simp only [] at h
      have hN1 : m1.next_free_address ≤ N :=
        Nat.le_trans (run_next_le rest m1 m' h) hN
      exact ih m1 h (step_sound N m m1 op hstep hs hN1
        (hops op (List.mem_cons_self _ _)))
        (fun o ho => hops o (List.mem_cons_of_mem _ ho))

/-- Counterexample to C9: `write_at(5, v)` is a public operation, and after
it the raw storage holds key `5`, which lies below `STARTING_ADDRESS` and so
was never issued by the allocator — the raw keys are not a subset of the
issued addresses. -/
theorem c9_storage_keys_counterexample :
    Memory.init.run [Op.writeAt 5 (Value.extVal 0)] =
      .ok (Memory.mk (Scope.mk "global_scope" .none_scope []) ⟨[]⟩
        [(5, Value.extVal 0)] 1000000 0) ∧
    rlookup [(5, Value.extVal 0)] 5 = some (Value.extVal 0) ∧
    5 < Memory.STARTING_ADDRESS := by
  refine ⟨?_, ?_, ?_⟩ <;> decide

/-- C9 amended: after any successful sequence of the public operations
starting from the initial memory, in which every `read_at`/`write_at`
targets an address in `[STARTING_ADDRESS, final cursor)`, the keys of the
raw storage map all lie in `[STARTING_ADDRESS, next_free_address)` — the
range of addresses the allocator has issued. -/
theorem c9_storage_keys_in_issued_range (ops : List Op) (m : Memory)
    (h : Memory.init.run ops = .ok m)
    (hops : ∀ op ∈ ops, op.addrOk m.next_free_address) :
    ∀ a v, rlookup m.raw_memory a = some v →
      Memory.STARTING_ADDRESS ≤ a ∧ a < m.next_free_address := by
  have hinit : Memory.init.sound m.next_free_address := by
    refine ⟨Nat.le_refl _, run_next_le ops Memory.init m h, ⟨?_, ?_⟩, ?_⟩
    · exact ⟨fun x hx => absurd hx (List.not_mem_nil x), trivial⟩
    · intro f hf
      cases hf
    · intro a v hv
      cases hv
  exact (run_sound m.next_free_address ops Memory.init m h hinit
    (Nat.le_refl _) hops).2.2.2

/-- Witness for C9 amended: declare a global `int x` then overwrite its
(issued) address directly; the stored key is in the issued range. -/
theorem c9_storage_keys_in_issued_range_witness :
    Memory.STARTING_ADDRESS ≤ 1000000 ∧ 1000000 < 1000004 :=
  c9_storage_keys_in_issued_range
    [Op.declare "int" "x", Op.writeAt 1000000 (Value.extVal 7)]
    (Memory.mk (Scope.mk "global_scope" .none_scope [("x", 1000000)]) ⟨[]⟩
      [(1000000, Value.extVal 7), (1000000, Value.number "int" 0)] 1000004 1)
    (by decide)
    (by intro op hop
        rcases List.mem_cons.1 hop with rfl | hop
        · trivial
        · rcases List.mem_cons.1 hop with rfl | hop
          · exact ⟨by decide, by decide⟩
          · cases hop)
    1000000 (Value.extVal 7) (by decide)

/-- Witness for C7: the pointer branch, `declare("int*", "p")` inside a
call frame. -/
theorem c7_declare_classification_witness :
    ∃ m', (Memory.init.new_frame "f").declare "int*" "p" = .ok m' ∧
      m'.activeScope.getItem? "p" = some 1000000 ∧
      rlookup m'.raw_memory 1000000 =
        some (if "int*".back == '*' then Value.pointer "int*"
              else if types_py.contains "int*" then Value.number "int*" 0
              else Value.none_val) ∧
      m'.next_free_address = 1000000 + sizeof "int*" :=
  c7_declare_classification (Memory.init.new_frame "f") "int*" "p" (by decide)
    (fun f rest h => by
      injection h with h1 h2
      rw [← h1]
      decide)

end CMemory
